import Mathlib

/-!
Verification of `cards.py`: seven strategies for sorting a deck of card
faces into the order given by the reference list `card_faces`.

Python values occurring in the program are strings and integers
(`card_faces` mixes `'Ace'` with the ints `2`..`10`), so deck elements are
embedded as `PyVal`.  Python dicts keyed by card faces are embedded as
association lists, loops with possible `KeyError` / `ValueError` /
`IndexError` as `Option`-valued folds and maps, and Python's stable
builtin sort as `List.insertionSort` (a stable sort; all claims here are
insensitive to which stable sort is used because equal keys come from
equal elements).
-/

/-- A Python value appearing in a deck: a string or an integer. -/
inductive PyVal where
  | str (s : String)
  | int (n : Int)
deriving DecidableEq, Repr

/-- `card_faces = [ 'Ace', 2, 3, 4, 5, 6, 7, 8, 9, 10, 'Jack', 'Queen', 'King' ]` -/
def card_faces : List PyVal :=
  [.str "Ace", .int 2, .int 3, .int 4, .int 5, .int 6, .int 7, .int 8, .int 9, .int 10,
   .str "Jack", .str "Queen", .str "King"]

/-- Python dict read `d[k]`: the value stored at key `k`, or `none`
(`KeyError`) when `k` is not a key. -/
def dget? {β : Type} : List (PyVal × β) → PyVal → Option β
  | [], _ => none
  | p :: rest, k => if p.1 = k then some p.2 else dget? rest k

/-- Python dict write `d[k] = v` for a key `k` already present: every
entry for `k` is overwritten, other entries and the key order are kept. -/
def dset {β : Type} (d : List (PyVal × β)) (k : PyVal) (v : β) : List (PyVal × β) :=
  d.map (fun p => if p.1 = k then (p.1, v) else p)

/-- Python `list.index(x)`: index of the first occurrence of `x`, or
`none` (`ValueError`) when `x` does not occur. -/
def pyIndex : List PyVal → PyVal → Option Nat
  | [], _ => none
  | a :: rest, x => if a = x then some 0 else (pyIndex rest x).map (· + 1)

/-- A `for` loop over `xs` building a result list, where the body may
raise (`none`); the first raise aborts the whole loop. -/
def mapO {α β : Type} (f : α → Option β) : List α → Option (List β)
  | [] => some []
  | a :: rest => (f a).bind (fun b => (mapO f rest).map (fun bs => b :: bs))

/-- A `for` loop over `xs` threading a state, where the body may raise
(`none`); the first raise aborts the whole loop. -/
def foldO {σ α : Type} (f : σ → α → Option σ) : σ → List α → Option σ
  | s, [] => some s
  | s, a :: rest => (f s a).bind (fun s' => foldO f s' rest)

/-- `card_values`, the dict built by
`for value, face in enumerate(card_faces): card_values[face] = value`:
each face is mapped to its position, entries in insertion order. -/
def card_values : List (PyVal × Nat) :=
  card_faces.enum.map (fun p => (p.2, p.1))

/-- The position of a card face in `card_faces` (its sort key); faces not
in the reference get the out-of-range value `card_faces.length`. -/
def cardIdx (c : PyVal) : Nat :=
  (pyIndex card_faces c).getD card_faces.length

/-- The order on deck elements induced by position in `card_faces`. -/
def rankLe (a b : PyVal) : Prop := cardIdx a ≤ cardIdx b

instance : DecidableRel rankLe := fun a b => Nat.decLe (cardIdx a) (cardIdx b)

/-- The order on (key, element) pairs used by Python's `sorted(xs, key=k)`
once every element is decorated with its key. -/
def pairLe (a b : Nat × PyVal) : Prop := a.1 ≤ b.1

instance : DecidableRel pairLe := fun a b => Nat.decLe a.1 b.1

instance : IsTotal (Nat × PyVal) pairLe := ⟨fun a b => Nat.le_total a.1 b.1⟩

instance : IsTrans (Nat × PyVal) pairLe := ⟨fun _ _ _ => Nat.le_trans⟩

/-- Python's `sorted(xs, key=k)`: decorate each element with its key (a
failing key lookup raises before any comparison), stable-sort by the key,
undecorate. -/
def pysorted (key : PyVal → Option Nat) (xs : List PyVal) : Option (List PyVal) :=
  (mapO (fun c => (key c).map (fun v => (v, c))) xs).map
    (fun pairs => (List.insertionSort pairLe pairs).map Prod.snd)

/-- `sort_with_val_dict`: builtin sort with the `card_values` dict as key
function (`sorted(deck, key=lambda i: card_values[i])`). -/
def sort_with_val_dict (deck : List PyVal) : Option (List PyVal) :=
  pysorted (fun i => dget? card_values i) deck

/-- `sort_with_val_index`: builtin sort with linear search in
`card_faces` as key function (`sorted(deck, key=lambda i: card_faces.index(i))`). -/
def sort_with_val_index (deck : List PyVal) : Option (List PyVal) :=
  pysorted (fun i => pyIndex card_faces i) deck

/-- One step of `counts[card] += 1` / `ordered_cards[card].append(card)`:
read the entry for `card` (raising `KeyError` when absent) and overwrite
it with an updated value. -/
def dictStep {β : Type} (u : PyVal → β → β) (d : List (PyVal × β)) (card : PyVal) :
    Option (List (PyVal × β)) :=
  (dget? d card).map (fun v => dset d card (u card v))

/-- `sort_with_dict_counts`: seed a dict with every face at count 0, count
the deck with `counts[card] += 1`, then emit `[face] * counts[face]` for
each face in reference order. -/
def sort_with_dict_counts (deck : List PyVal) : Option (List PyVal) :=
  (foldO (dictStep (fun _ n => n + 1)) (card_faces.map (fun face => (face, 0))) deck).bind
    (fun counts =>
      (mapO (fun face => (dget? counts face).map (fun n => List.replicate n face)) card_faces).map
        (fun segs => segs.flatten))

/-- `sort_ordered_dict`: seed an ordered dict with an empty bucket per
face, append each card to its bucket with `ordered_cards[card].append(card)`
(raising `KeyError` when absent), then concatenate `ordered_cards.values()`
in key-insertion order. -/
def sort_ordered_dict (deck : List PyVal) : Option (List PyVal) :=
  (foldO (dictStep (fun card l => l ++ [card]))
      (card_faces.map (fun face => (face, ([] : List PyVal)))) deck).map
    (fun buckets => (buckets.map Prod.snd).flatten)

/-- One step of `counter[card] += 1` on a `collections.Counter`: a missing
key reads as 0 (no `KeyError`), and the write inserts it. -/
def counterAdd (ctr : List (PyVal × Nat)) (card : PyVal) : List (PyVal × Nat) :=
  match dget? ctr card with
  | some n => dset ctr card (n + 1)
  | none => ctr ++ [(card, 1)]

/-- `counter[face]` on a `collections.Counter`: 0 for a missing key. -/
def counterGet (ctr : List (PyVal × Nat)) (card : PyVal) : Nat :=
  (dget? ctr card).getD 0

/-- `sort_counter`: tally the deck into a `Counter`, then emit
`[face] * counter[face]` for each face in reference order.  A `Counter`
never raises, so this strategy is total. -/
def sort_counter (deck : List PyVal) : List PyVal :=
  ((card_faces.map (fun face => List.replicate (counterGet (deck.foldl counterAdd []) face) face)).flatten)

/-- `sort_replace`: copy the deck, replace each face by `card_values[face]`,
sort the integer list with the builtin sort, then replace each integer `v`
by `card_faces[v]`. -/
def sort_replace (deck : List PyVal) : Option (List PyVal) :=
  (mapO (fun face => dget? card_values face) deck).bind
    (fun vals => mapO (fun value => card_faces[value]?) (List.insertionSort (· ≤ ·) vals))

/-- `bubble_sort`: copy the deck and replace each face by
`card_values[face]`; the `# manual bubble sort` comment in the source is
followed by no sorting statement, so the values are immediately replaced
back by `card_faces[value]`. -/
def bubble_sort (deck : List PyVal) : Option (List PyVal) :=
  (mapO (fun face => dget? card_values face) deck).bind
    (fun vals => mapO (fun value => card_faces[value]?) vals)

/-- The harness's oracle: `baseline = sorted(deck, key=lambda i: card_faces.index(i))`. -/
def baseline (deck : List PyVal) : Option (List PyVal) :=
  pysorted (fun i => pyIndex card_faces i) deck

/-- The counting-sort normal form: each face of the reference, in
reference order, repeated as many times as it occurs in the deck. -/
def canon (deck : List PyVal) : List PyVal :=
  (card_faces.map (fun face => List.replicate (deck.count face) face)).flatten

/-- A deck is valid when every element is one of the 13 card faces. -/
def ValidDeck (deck : List PyVal) : Prop := ∀ c ∈ deck, c ∈ card_faces

instance : DecidablePred ValidDeck := fun deck => List.decidableBAll _ deck

/-- The face stored at a given position of `card_faces` (an arbitrary
default out of range); inverse of `cardIdx` on valid data. -/
def unidx (n : Nat) : PyVal := (card_faces[n]?).getD (.str "")

/-!
Heap-level models of the two in-place strategies.

`sort_replace` and `bubble_sort` are the two strategies that assign into
list elements.  To express that they leave the shared deck untouched, the
Python heap is modelled explicitly: list objects live in numbered cells,
variables hold cell indices, and `ret[index] = ...` writes into `ret`'s
cell.  `ret = deck[:]` allocates a fresh cell holding a copy of the deck,
and `ret = sorted(ret)` rebinds `ret` to another fresh cell, exactly as in
the source. -/

/-- Heap-level `sort_replace`, started with the deck in cell `deckRef`:
returns the final heap and the cell of the returned list. -/
def sort_replace_heap (heap : List (List PyVal)) (deckRef : Nat) :
    Option (List (List PyVal) × Nat) :=
  (heap[deckRef]?).bind (fun deckL =>
    let retRef := heap.length
    let heap1 := heap ++ [deckL]
    (mapO (fun face => dget? card_values face) deckL).bind (fun vals =>
      let heap2 := heap1.set retRef (vals.map (fun v => PyVal.int v))
      let svals := List.insertionSort (· ≤ ·) vals
      let retRef2 := heap2.length
      let heap3 := heap2 ++ [svals.map (fun v => PyVal.int v)]
      (mapO (fun value => card_faces[value]?) svals).map (fun out =>
        (heap3.set retRef2 out, retRef2))))

/-- Heap-level `bubble_sort`, started with the deck in cell `deckRef`:
returns the final heap and the cell of the returned list. -/
def bubble_sort_heap (heap : List (List PyVal)) (deckRef : Nat) :
    Option (List (List PyVal) × Nat) :=
  (heap[deckRef]?).bind (fun deckL =>
    let retRef := heap.length
    let heap1 := heap ++ [deckL]
    (mapO (fun face => dget? card_values face) deckL).bind (fun vals =>
      let heap2 := heap1.set retRef (vals.map (fun v => PyVal.int v))
      (mapO (fun value => card_faces[value]?) vals).map (fun out =>
        (heap2.set retRef out, retRef))))

/-! ### Lookup infrastructure -/

theorem pyIndex_isSome_of_mem {x : PyVal} :
    ∀ {l : List PyVal}, x ∈ l → (pyIndex l x).isSome := by
  intro l
  induction l with
  | nil => intro h; cases h
  | cons a rest ih =>
    intro h
    by_cases hax : a = x
    · simp [pyIndex, hax]
    · rcases List.mem_cons.mp h with h' | h'
      · exact absurd h'.symm hax
      · simpa [pyIndex, hax] using ih h'

theorem pyIndex_eq_none_of_not_mem {x : PyVal} :
    ∀ {l : List PyVal}, x ∉ l → pyIndex l x = none := by
  intro l
  induction l with
  | nil => intro _; rfl
  | cons a rest ih =>
    intro h
    have hax : a ≠ x := fun e => h (e ▸ List.mem_cons_self a rest)
    have hrest : x ∉ rest := fun e => h (List.mem_cons_of_mem a e)
    simp [pyIndex, hax, ih hrest]

theorem pyIndex_getElem {x : PyVal} :
    ∀ {l : List PyVal} {i : Nat}, pyIndex l x = some i → l[i]? = some x := by
  intro l
  induction l with
  | nil => intro i h; simp [pyIndex] at h
  | cons a rest ih =>
    intro i h
    by_cases hax : a = x
    · simp only [pyIndex, if_pos hax, Option.some.injEq] at h
      subst h
      simp [hax]
    · simp only [pyIndex, if_neg hax, Option.map_eq_some'] at h
      rcases h with ⟨j, hj, hij⟩
      subst hij
      simpa using ih hj

theorem key_index_valid {c : PyVal} (h : c ∈ card_faces) :
    pyIndex card_faces c = some (cardIdx c) := by
  rcases Option.isSome_iff_exists.mp (pyIndex_isSome_of_mem h) with ⟨i, hi⟩
  rw [hi, cardIdx, hi]
  rfl

theorem cardIdx_lt {c : PyVal} (h : c ∈ card_faces) : cardIdx c < card_faces.length := by
  have := pyIndex_getElem (key_index_valid h)
  exact (List.getElem?_eq_some_iff.mp this).1

theorem getElem?_card_faces {n : Nat} (h : n < card_faces.length) :
    card_faces[n]? = some (unidx n) := by
  rw [unidx, List.getElem?_eq_getElem h]
  rfl

theorem unidx_cardIdx {c : PyVal} (h : c ∈ card_faces) : unidx (cardIdx c) = c := by
  have := pyIndex_getElem (key_index_valid h)
  simp [unidx, this]

theorem cardIdx_unidx : ∀ n < card_faces.length, cardIdx (unidx n) = n := by decide

theorem unidx_mem {n : Nat} (h : n < card_faces.length) : unidx n ∈ card_faces :=
  List.getElem?_mem (getElem?_card_faces h)

theorem dget_enumFrom (c : PyVal) :
    ∀ (l : List PyVal) (n : Nat),
      dget? ((List.enumFrom n l).map (fun p => (p.2, p.1))) c = (pyIndex l c).map (n + ·) := by
  intro l
  induction l with
  | nil => intro n; rfl
  | cons a rest ih =>
    intro n
    by_cases hac : a = c
    · simp [List.enumFrom, dget?, pyIndex, hac]
    · simp only [List.enumFrom, List.map_cons, dget?, if_neg hac, pyIndex, ih (n + 1),
        Option.map_map]
      cases pyIndex rest c with
      | none => rfl
      | some j => simp [Function.comp]; omega

theorem dget_card_values (c : PyVal) : dget? card_values c = pyIndex card_faces c := by
  have h := dget_enumFrom c card_faces 0
  rw [card_values, List.enum]
  rw [h]
  cases pyIndex card_faces c with
  | none => rfl
  | some j => simp

theorem key_dict_valid {c : PyVal} (h : c ∈ card_faces) :
    dget? card_values c = some (cardIdx c) := by
  rw [dget_card_values, key_index_valid h]

theorem key_dict_invalid {c : PyVal} (h : c ∉ card_faces) : dget? card_values c = none := by
  rw [dget_card_values, pyIndex_eq_none_of_not_mem h]

/-! ### Dict update infrastructure -/

theorem dget_dset_self {β : Type} :
    ∀ {d : List (PyVal × β)} {k : PyVal} (v : β), (dget? d k).isSome →
      dget? (dset d k v) k = some v := by
  intro d
  induction d with
  | nil => intro k v h; simp [dget?] at h
  | cons p rest ih =>
    intro k v h
    by_cases hpk : p.1 = k
    · simp [dset, dget?, hpk]
    · simp only [dget?, if_neg hpk] at h
      simpa [dset, dget?, hpk] using ih v h

theorem dget_dset_ne {β : Type} :
    ∀ (d : List (PyVal × β)) (k : PyVal) (v : β) {x : PyVal}, x ≠ k →
      dget? (dset d k v) x = dget? d x := by
  intro d
  induction d with
  | nil => intro k v x _; rfl
  | cons p rest ih =>
    intro k v x hxk
    have hstep : dset (p :: rest) k v = (if p.1 = k then (p.1, v) else p) :: dset rest k v := rfl
    rw [hstep]
    by_cases hpk : p.1 = k
    · have hpx : p.1 ≠ x := fun e => hxk (e.symm.trans hpk)
      rw [if_pos hpk]
      show (if p.1 = x then some v else dget? (dset rest k v) x) = dget? (p :: rest) x
      rw [if_neg hpx, ih k v hxk]
      show dget? rest x = if p.1 = x then some p.2 else dget? rest x
      rw [if_neg hpx]
    · rw [if_neg hpk]
      show (if p.1 = x then some p.2 else dget? (dset rest k v) x) = dget? (p :: rest) x
      by_cases hpx : p.1 = x
      · rw [if_pos hpx]
        show some p.2 = if p.1 = x then some p.2 else dget? rest x
        rw [if_pos hpx]
      · rw [if_neg hpx, ih k v hxk]
        show dget? rest x = if p.1 = x then some p.2 else dget? rest x
        rw [if_neg hpx]

theorem dget_append_of_none {β : Type} {x : PyVal} :
    ∀ {d₁ : List (PyVal × β)}, dget? d₁ x = none →
      ∀ (d₂ : List (PyVal × β)), dget? (d₁ ++ d₂) x = dget? d₂ x := by
  intro d₁
  induction d₁ with
  | nil => intro _ d₂; rfl
  | cons p rest ih =>
    intro h d₂
    by_cases hpx : p.1 = x
    · simp [dget?, hpx] at h
    · simp only [dget?, if_neg hpx] at h
      simpa [dget?, hpx] using ih h d₂

theorem dget_append_of_some {β : Type} {x : PyVal} {v : β} :
    ∀ {d₁ : List (PyVal × β)}, dget? d₁ x = some v →
      ∀ (d₂ : List (PyVal × β)), dget? (d₁ ++ d₂) x = some v := by
  intro d₁
  induction d₁ with
  | nil => intro h; simp [dget?] at h
  | cons p rest ih =>
    intro h d₂
    by_cases hpx : p.1 = x
    · simpa [dget?, hpx] using by simpa [dget?, hpx] using h
    · simp only [dget?, if_neg hpx] at h
      simpa [dget?, hpx] using ih h d₂

theorem dget_map_of_mem {β : Type} (g : PyVal → β) {c : PyVal} :
    ∀ {faces : List PyVal}, c ∈ faces →
      dget? (faces.map (fun f => (f, g f))) c = some (g c) := by
  intro faces
  induction faces with
  | nil => intro h; cases h
  | cons a rest ih =>
    intro h
    by_cases hac : a = c
    · simp [dget?, hac]
    · rcases List.mem_cons.mp h with h' | h'
      · exact absurd h'.symm hac
      · simpa [dget?, hac] using ih h'

theorem dget_map_of_not_mem {β : Type} (g : PyVal → β) {c : PyVal} :
    ∀ {faces : List PyVal}, c ∉ faces →
      dget? (faces.map (fun f => (f, g f))) c = none := by
  intro faces
  induction faces with
  | nil => intro _; rfl
  | cons a rest ih =>
    intro h
    have hac : a ≠ c := fun e => h (e ▸ List.mem_cons_self a rest)
    have hrest : c ∉ rest := fun e => h (List.mem_cons_of_mem a e)
    simp [dget?, hac, ih hrest]

theorem dset_map {β : Type} (faces : List PyVal) (g : PyVal → β) (c : PyVal) (v : β) :
    dset (faces.map (fun f => (f, g f))) c v =
      faces.map (fun f => (f, if f = c then v else g f)) := by
  rw [dset, List.map_map]
  apply List.map_congr_left
  intro f _
  by_cases hfc : f = c
  · simp [hfc]
  · simp [hfc]

/-! ### Loop infrastructure -/

theorem mapO_eq_map {α β : Type} {f : α → Option β} {g : α → β} :
    ∀ {l : List α}, (∀ a ∈ l, f a = some (g a)) → mapO f l = some (l.map g) := by
  intro l
  induction l with
  | nil => intro _; rfl
  | cons a rest ih =>
    intro h
    have ha := h a (List.mem_cons_self a rest)
    have hrest := ih (fun x hx => h x (List.mem_cons_of_mem a hx))
    simp [mapO, ha, hrest]

theorem mapO_eq_none {α β : Type} {f : α → Option β} :
    ∀ {l : List α} {a : α}, a ∈ l → f a = none → mapO f l = none := by
  intro l
  induction l with
  | nil => intro a h; cases h
  | cons b rest ih =>
    intro a h hf
    rcases List.mem_cons.mp h with h' | h'
    · subst h'
      simp [mapO, hf]
    · cases hb : f b with
      | none => simp [mapO, hb]
      | some v => simp [mapO, hb, ih h' hf]

theorem foldO_dictStep_valid {β : Type} (u : PyVal → β → β) :
    ∀ (deck : List PyVal), ValidDeck deck → ∀ (g : PyVal → β),
      foldO (dictStep u) (card_faces.map (fun f => (f, g f))) deck =
        some (card_faces.map (fun f =>
          (f, deck.foldl (fun acc c => if c = f then u c acc else acc) (g f)))) := by
  intro deck
  induction deck with
  | nil => intro _ g; rfl
  | cons c rest ih =>
    intro hv g
    have hc : c ∈ card_faces := hv c (List.mem_cons_self c rest)
    have hrest : ValidDeck rest := fun x hx => hv x (List.mem_cons_of_mem c hx)
    have hstep : dictStep u (card_faces.map (fun f => (f, g f))) c =
        some (card_faces.map (fun f => (f, if f = c then u c (g f) else g f))) := by
      rw [dictStep, dget_map_of_mem g hc, Option.map_some', dset_map]
      have : ∀ f ∈ card_faces,
          (f, if f = c then u c (g c) else g f) = (f, if f = c then u c (g f) else g f) := by
        intro f _
        by_cases hfc : f = c
        · subst hfc; simp
        · simp [hfc]
      rw [List.map_congr_left this]
    show (dictStep u (card_faces.map (fun f => (f, g f))) c).bind _ = _
    rw [hstep, Option.some_bind]
    rw [ih hrest (fun f => if f = c then u c (g f) else g f)]
    apply congrArg some
    apply List.map_congr_left
    intro f _
    apply congrArg (fun t => (f, t))
    show rest.foldl _ (if f = c then u c (g f) else g f) = List.foldl _ _ (c :: rest)
    rw [List.foldl_cons]
    apply congrArg (rest.foldl _)
    by_cases hfc : f = c
    · subst hfc; simp
    · have hcf : c ≠ f := fun e => hfc e.symm
      rw [if_neg hfc, if_neg hcf]

theorem foldO_dictStep_invalid {β : Type} (u : PyVal → β → β) :
    ∀ (deck : List PyVal) {c : PyVal}, c ∈ deck → c ∉ card_faces → ∀ (g : PyVal → β),
      foldO (dictStep u) (card_faces.map (fun f => (f, g f))) deck = none := by
  intro deck
  induction deck with
  | nil => intro c h; cases h
  | cons a rest ih =>
    intro c hc hinv g
    by_cases ha : a ∈ card_faces
    · have hca : c ∈ rest := by
        rcases List.mem_cons.mp hc with h' | h'
        · exact absurd (h' ▸ ha) hinv
        · exact h'
      have hstep : dictStep u (card_faces.map (fun f => (f, g f))) a =
          some (dset (card_faces.map (fun f => (f, g f))) a (u a (g a))) := by
        rw [dictStep, dget_map_of_mem g ha, Option.map_some']
      show (dictStep u (card_faces.map (fun f => (f, g f))) a).bind _ = _
      rw [hstep, Option.some_bind, dset_map]
      exact ih hca hinv (fun f => if f = a then u a (g a) else g f)
    · have hstep : dictStep u (card_faces.map (fun f => (f, g f))) a = none := by
        rw [dictStep, dget_map_of_not_mem g ha, Option.map_none']
      show (dictStep u (card_faces.map (fun f => (f, g f))) a).bind _ = _
      rw [hstep, Option.none_bind]

/-! ### Counter infrastructure -/

theorem counterGet_counterAdd (ctr : List (PyVal × Nat)) (card x : PyVal) :
    counterGet (counterAdd ctr card) x =
      if x = card then counterGet ctr x + 1 else counterGet ctr x := by
  by_cases hxc : x = card
  · subst hxc
    cases hctr : dget? ctr x with
    | some n =>
      have : counterAdd ctr x = dset ctr x (n + 1) := by rw [counterAdd, hctr]
      rw [this, counterGet, dget_dset_self (n + 1) (by rw [hctr]; rfl), counterGet, hctr]
      simp
    | none =>
      have : counterAdd ctr x = ctr ++ [(x, 1)] := by rw [counterAdd, hctr]
      rw [this, counterGet, dget_append_of_none hctr, counterGet, hctr]
      simp [dget?]
  · cases hctr : dget? ctr card with
    | some n =>
      have : counterAdd ctr card = dset ctr card (n + 1) := by rw [counterAdd, hctr]
      rw [this, counterGet, dget_dset_ne ctr card (n + 1) hxc, if_neg hxc, counterGet]
    | none =>
      have : counterAdd ctr card = ctr ++ [(card, 1)] := by rw [counterAdd, hctr]
      rw [this, if_neg hxc, counterGet, counterGet]
      cases hx : dget? ctr x with
      | some v => rw [dget_append_of_some hx]
      | none =>
        rw [dget_append_of_none hx]
        have hcx : card ≠ x := fun e => hxc e.symm
        simp [dget?, hcx]

theorem counterGet_foldl :
    ∀ (deck : List PyVal) (ctr : List (PyVal × Nat)) (x : PyVal),
      counterGet (deck.foldl counterAdd ctr) x = counterGet ctr x + deck.count x := by
  intro deck
  induction deck with
  | nil => intro ctr x; simp
  | cons a rest ih =>
    intro ctr x
    rw [List.foldl_cons, ih (counterAdd ctr a) x, counterGet_counterAdd]
    rw [List.count_cons]
    by_cases hxa : x = a
    · rw [if_pos hxa, if_pos (by exact beq_iff_eq.mpr hxa.symm)]
      omega
    · have hax : ¬((a == x) = true) := by
        rw [beq_iff_eq]
        exact fun e => hxa e.symm
      rw [if_neg hxa, if_neg hax]
      omega

/-! ### The counting-sort normal form -/

theorem count_flat_replicate (g : PyVal → Nat) (x : PyVal) :
    ∀ {faces : List PyVal}, faces.Nodup →
      ((faces.map (fun f => List.replicate (g f) f)).flatten).count x =
        if x ∈ faces then g x else 0 := by
  intro faces
  induction faces with
  | nil => intro _; simp
  | cons a rest ih =>
    intro hnd
    rw [List.map_cons, List.flatten_cons, List.count_append, ih (List.nodup_cons.mp hnd).2]
    by_cases hxa : x = a
    · subst hxa
      have hxr : x ∉ rest := (List.nodup_cons.mp hnd).1
      simp [List.count_replicate, hxr]
    · have hax : ¬((a == x) = true) := by
        rw [beq_iff_eq]
        exact fun e => hxa e.symm
      rw [List.count_replicate, if_neg hax]
      by_cases hxr : x ∈ rest
      · simp [hxr, hxa]
      · simp [hxr, hxa]

theorem canon_count (deck : List PyVal) (x : PyVal) :
    (canon deck).count x = if x ∈ card_faces then deck.count x else 0 :=
  count_flat_replicate (fun f => deck.count f) x (by decide)

theorem canon_perm {deck : List PyVal} (h : ValidDeck deck) : (canon deck).Perm deck := by
  rw [List.perm_iff_count]
  intro a
  rw [canon_count]
  by_cases ha : a ∈ card_faces
  · rw [if_pos ha]
  · rw [if_neg ha]
    have : a ∉ deck := fun hmem => ha (h a hmem)
    exact (List.count_eq_zero.mpr this).symm

theorem pairwise_rankLe_replicate (n : Nat) (a : PyVal) :
    List.Pairwise rankLe (List.replicate n a) :=
  List.pairwise_replicate.mpr (Or.inr (Nat.le_refl (cardIdx a)))

theorem sorted_flat_replicate (g : PyVal → Nat) :
    ∀ {faces : List PyVal}, List.Pairwise rankLe faces →
      List.Pairwise rankLe ((faces.map (fun f => List.replicate (g f) f)).flatten) := by
  intro faces
  induction faces with
  | nil => intro _; simp
  | cons a rest ih =>
    intro hs
    rw [List.map_cons, List.flatten_cons, List.pairwise_append]
    refine ⟨pairwise_rankLe_replicate (g a) a, ih (List.pairwise_cons.mp hs).2, ?_⟩
    intro x hx y hy
    have hxa : x = a := List.eq_of_mem_replicate hx
    rcases List.mem_flatten.mp hy with ⟨l, hl, hyl⟩
    rcases List.mem_map.mp hl with ⟨f, hf, hfl⟩
    have hyf : y = f := List.eq_of_mem_replicate (hfl ▸ hyl)
    rw [hxa, hyf]
    exact (List.pairwise_cons.mp hs).1 f hf

theorem canon_sorted (deck : List PyVal) : List.Pairwise rankLe (canon deck) :=
  sorted_flat_replicate (fun f => deck.count f) (by decide)

theorem canon_valid (deck : List PyVal) : ValidDeck (canon deck) := by
  intro x hx
  rcases List.mem_flatten.mp hx with ⟨l, hl, hxl⟩
  rcases List.mem_map.mp hl with ⟨f, hf, hfl⟩
  have : x = f := List.eq_of_mem_replicate (hfl ▸ hxl)
  exact this ▸ hf

theorem sort_counter_eq_canon (deck : List PyVal) : sort_counter deck = canon deck := by
  rw [sort_counter, canon]
  apply congrArg List.flatten
  apply List.map_congr_left
  intro f _
  rw [counterGet_foldl deck [] f]
  simp [counterGet, dget?]

/-! ### Uniqueness of the sorted arrangement of a valid deck -/

theorem map_unidx_cardIdx {l : List PyVal} (h : ValidDeck l) :
    (l.map cardIdx).map unidx = l := by
  rw [List.map_map]
  have : ∀ a ∈ l, (unidx ∘ cardIdx) a = id a := by
    intro a ha
    exact unidx_cardIdx (h a ha)
  rw [List.map_congr_left this, List.map_id]

theorem sorted_valid_unique {l₁ l₂ : List PyVal} (hv : ValidDeck l₁) (hp : l₁.Perm l₂)
    (hs₁ : List.Pairwise rankLe l₁) (hs₂ : List.Pairwise rankLe l₂) : l₁ = l₂ := by
  have hv₂ : ValidDeck l₂ := fun x hx => hv x (hp.mem_iff.mpr hx)
  have hmap : l₁.map cardIdx = l₂.map cardIdx :=
    @List.eq_of_perm_of_sorted Nat (fun a b => a ≤ b) _ _ _ (hp.map cardIdx)
      (List.pairwise_map.mpr hs₁) (List.pairwise_map.mpr hs₂)
  calc l₁ = (l₁.map cardIdx).map unidx := (map_unidx_cardIdx hv).symm
    _ = (l₂.map cardIdx).map unidx := by rw [hmap]
    _ = l₂ := map_unidx_cardIdx hv₂

/-! ### The key-decorated builtin sort -/

theorem sortPairs_eq_canon {deck : List PyVal} (hv : ValidDeck deck) :
    (List.insertionSort pairLe (deck.map (fun c => (cardIdx c, c)))).map Prod.snd =
      canon deck := by
  have hperm0 : (List.insertionSort pairLe (deck.map (fun c => (cardIdx c, c)))).Perm
      (deck.map (fun c => (cardIdx c, c))) := List.perm_insertionSort pairLe _
  have hpermsnd :
      ((List.insertionSort pairLe (deck.map (fun c => (cardIdx c, c)))).map Prod.snd).Perm
        deck := by
    have h := hperm0.map Prod.snd
    rw [List.map_map] at h
    have hid : deck.map (Prod.snd ∘ fun c => (cardIdx c, c)) = deck := by
      have : ∀ a ∈ deck, (Prod.snd ∘ fun c => (cardIdx c, c)) a = id a := fun a _ => rfl
      rw [List.map_congr_left this, List.map_id]
    rw [hid] at h
    exact h
  have hsorted :
      List.Pairwise rankLe
        ((List.insertionSort pairLe (deck.map (fun c => (cardIdx c, c)))).map Prod.snd) := by
    rw [List.pairwise_map]
    have hs0 := List.sorted_insertionSort pairLe (deck.map (fun c => (cardIdx c, c)))
    refine List.Pairwise.imp_of_mem ?_ hs0
    intro a b ha hb hab
    have hfst : ∀ p ∈ List.insertionSort pairLe (deck.map (fun c => (cardIdx c, c))),
        p.1 = cardIdx p.2 := by
      intro p hp
      rcases List.mem_map.mp (hperm0.mem_iff.mp hp) with ⟨c, _, hc⟩
      rw [← hc]
    show cardIdx a.2 ≤ cardIdx b.2
    rw [← hfst a ha, ← hfst b hb]
    exact hab
  have hvout :
      ValidDeck
        ((List.insertionSort pairLe (deck.map (fun c => (cardIdx c, c)))).map Prod.snd) :=
    fun x hx => hv x (hpermsnd.mem_iff.mp hx)
  exact sorted_valid_unique hvout (hpermsnd.trans (canon_perm hv).symm) hsorted
    (canon_sorted deck)

theorem pysorted_valid {key : PyVal → Option Nat}
    (hkey : ∀ c ∈ card_faces, key c = some (cardIdx c))
    {deck : List PyVal} (hv : ValidDeck deck) :
    pysorted key deck = some (canon deck) := by
  have hpairs : mapO (fun c => (key c).map (fun v => (v, c))) deck =
      some (deck.map (fun c => (cardIdx c, c))) := by
    apply mapO_eq_map
    intro a ha
    rw [hkey a (hv a ha), Option.map_some']
  rw [pysorted, hpairs, Option.map_some', sortPairs_eq_canon hv]

theorem pysorted_invalid {key : PyVal → Option Nat} {deck : List PyVal} {c : PyVal}
    (hc : c ∈ deck) (hkey : key c = none) : pysorted key deck = none := by
  rw [pysorted, mapO_eq_none hc (by rw [hkey]; rfl), Option.map_none']

/-! ### Strategy-by-strategy behavior on valid decks -/

theorem sort_with_val_dict_valid {deck : List PyVal} (hv : ValidDeck deck) :
    sort_with_val_dict deck = some (canon deck) :=
  pysorted_valid (fun _ hc => key_dict_valid hc) hv

theorem sort_with_val_index_valid {deck : List PyVal} (hv : ValidDeck deck) :
    sort_with_val_index deck = some (canon deck) :=
  pysorted_valid (fun _ hc => key_index_valid hc) hv

theorem baseline_valid {deck : List PyVal} (hv : ValidDeck deck) :
    baseline deck = some (canon deck) :=
  pysorted_valid (fun _ hc => key_index_valid hc) hv

theorem foldl_count_acc (f : PyVal) :
    ∀ (deck : List PyVal) (n : Nat),
      deck.foldl (fun acc c => if c = f then acc + 1 else acc) n = n + deck.count f := by
  intro deck
  induction deck with
  | nil => intro n; simp
  | cons a rest ih =>
    intro n
    rw [List.foldl_cons, ih, List.count_cons]
    by_cases haf : a = f
    · rw [if_pos haf, if_pos (beq_iff_eq.mpr haf)]
      omega
    · rw [if_neg haf, if_neg (by rw [beq_iff_eq]; exact haf)]
      omega

theorem sort_with_dict_counts_valid {deck : List PyVal} (hv : ValidDeck deck) :
    sort_with_dict_counts deck = some (canon deck) := by
  rw [sort_with_dict_counts]
  rw [foldO_dictStep_valid (fun _ n => n + 1) deck hv (fun _ => 0), Option.some_bind]
  have hemit :
      mapO (fun face =>
          (dget? (card_faces.map (fun f =>
            (f, deck.foldl (fun acc c => if c = f then (fun _ n => n + 1) c acc else acc)
              ((fun _ => 0) f)))) face).map
            (fun n => List.replicate n face)) card_faces =
        some (card_faces.map (fun face => List.replicate (deck.count face) face)) := by
    apply mapO_eq_map
    intro a ha
    rw [dget_map_of_mem _ ha, Option.map_some']
    show some (List.replicate (deck.foldl (fun acc c => if c = a then acc + 1 else acc) 0) a) =
      some (List.replicate (deck.count a) a)
    rw [foldl_count_acc a deck 0, Nat.zero_add]
  rw [hemit, Option.map_some']
  rfl

theorem foldl_bucket_acc (f : PyVal) :
    ∀ (deck : List PyVal) (acc : List PyVal),
      deck.foldl (fun l c => if c = f then l ++ [c] else l) acc =
        acc ++ List.replicate (deck.count f) f := by
  intro deck
  induction deck with
  | nil => intro acc; simp
  | cons a rest ih =>
    intro acc
    rw [List.foldl_cons, ih, List.count_cons]
    by_cases haf : a = f
    · rw [if_pos haf, if_pos (beq_iff_eq.mpr haf)]
      rw [haf, List.append_assoc]
      apply congrArg
      rw [List.replicate_succ]
      rfl
    · rw [if_neg haf, if_neg (by rw [beq_iff_eq]; exact haf)]
      simp

theorem sort_ordered_dict_valid {deck : List PyVal} (hv : ValidDeck deck) :
    sort_ordered_dict deck = some (canon deck) := by
  rw [sort_ordered_dict]
  rw [foldO_dictStep_valid (fun card l => l ++ [card]) deck hv (fun _ => ([] : List PyVal)),
    Option.map_some']
  apply congrArg some
  rw [List.map_map, canon]
  apply congrArg List.flatten
  apply List.map_congr_left
  intro f _
  show deck.foldl (fun l c => if c = f then l ++ [c] else l) [] =
    List.replicate (deck.count f) f
  rw [foldl_bucket_acc f deck []]
  rfl

theorem mapO_card_values {deck : List PyVal} (hv : ValidDeck deck) :
    mapO (fun face => dget? card_values face) deck = some (deck.map cardIdx) := by
  apply mapO_eq_map
  intro a ha
  exact key_dict_valid (hv a ha)

theorem mapO_unidx {vals : List Nat} (hlt : ∀ v ∈ vals, v < card_faces.length) :
    mapO (fun value => card_faces[value]?) vals = some (vals.map unidx) := by
  apply mapO_eq_map
  intro v hv
  exact getElem?_card_faces (hlt v hv)

theorem bubble_sort_valid {deck : List PyVal} (hv : ValidDeck deck) :
    bubble_sort deck = some deck := by
  rw [bubble_sort, mapO_card_values hv, Option.some_bind]
  have hlt : ∀ v ∈ deck.map cardIdx, v < card_faces.length := by
    intro v hv'
    rcases List.mem_map.mp hv' with ⟨c, hc, rfl⟩
    exact cardIdx_lt (hv c hc)
  rw [mapO_unidx hlt, map_unidx_cardIdx hv]

theorem sort_replace_valid {deck : List PyVal} (hv : ValidDeck deck) :
    sort_replace deck = some (canon deck) := by
  rw [sort_replace, mapO_card_values hv, Option.some_bind]
  have hsperm : (List.insertionSort (· ≤ ·) (deck.map cardIdx)).Perm (deck.map cardIdx) :=
    List.perm_insertionSort (· ≤ ·) (deck.map cardIdx)
  have hlt : ∀ v ∈ List.insertionSort (· ≤ ·) (deck.map cardIdx),
      v < card_faces.length := by
    intro v hv'
    rcases List.mem_map.mp (hsperm.mem_iff.mp hv') with ⟨c, hc, rfl⟩
    exact cardIdx_lt (hv c hc)
  rw [mapO_unidx hlt]
  apply congrArg some
  have hperm : ((List.insertionSort (· ≤ ·) (deck.map cardIdx)).map unidx).Perm deck := by
    have h := hsperm.map unidx
    rw [map_unidx_cardIdx hv] at h
    exact h
  have hsorted :
      List.Pairwise rankLe ((List.insertionSort (· ≤ ·) (deck.map cardIdx)).map unidx) := by
    rw [List.pairwise_map]
    have hs0 : List.Pairwise (· ≤ ·) (List.insertionSort (· ≤ ·) (deck.map cardIdx)) :=
      List.sorted_insertionSort (· ≤ ·) (deck.map cardIdx)
    refine List.Pairwise.imp_of_mem ?_ hs0
    intro a b ha hb hab
    show cardIdx (unidx a) ≤ cardIdx (unidx b)
    rw [cardIdx_unidx a (hlt a ha), cardIdx_unidx b (hlt b hb)]
    exact hab
  have hvout : ValidDeck ((List.insertionSort (· ≤ ·) (deck.map cardIdx)).map unidx) := by
    intro x hx
    rcases List.mem_map.mp hx with ⟨v, hv', rfl⟩
    exact unidx_mem (hlt v hv')
  exact sorted_valid_unique hvout (hperm.trans (canon_perm hv).symm) hsorted
    (canon_sorted deck)

/-! ### Strategy-by-strategy behavior on a deck with an unrecognized label -/

theorem sort_with_val_dict_invalid {deck : List PyVal} {c : PyVal}
    (hc : c ∈ deck) (hinv : c ∉ card_faces) : sort_with_val_dict deck = none :=
  pysorted_invalid hc (by rw [key_dict_invalid hinv])

theorem sort_with_val_index_invalid {deck : List PyVal} {c : PyVal}
    (hc : c ∈ deck) (hinv : c ∉ card_faces) : sort_with_val_index deck = none :=
  pysorted_invalid hc (by rw [pyIndex_eq_none_of_not_mem hinv])

theorem baseline_invalid {deck : List PyVal} {c : PyVal}
    (hc : c ∈ deck) (hinv : c ∉ card_faces) : baseline deck = none :=
  pysorted_invalid hc (by rw [pyIndex_eq_none_of_not_mem hinv])

theorem sort_with_dict_counts_invalid {deck : List PyVal} {c : PyVal}
    (hc : c ∈ deck) (hinv : c ∉ card_faces) : sort_with_dict_counts deck = none := by
  rw [sort_with_dict_counts,
    foldO_dictStep_invalid (fun _ n => n + 1) deck hc hinv (fun _ => 0), Option.none_bind]

theorem sort_ordered_dict_invalid {deck : List PyVal} {c : PyVal}
    (hc : c ∈ deck) (hinv : c ∉ card_faces) : sort_ordered_dict deck = none := by
  rw [sort_ordered_dict,
    foldO_dictStep_invalid (fun card l => l ++ [card]) deck hc hinv
      (fun _ => ([] : List PyVal)),
    Option.map_none']

theorem sort_replace_invalid {deck : List PyVal} {c : PyVal}
    (hc : c ∈ deck) (hinv : c ∉ card_faces) : sort_replace deck = none := by
  rw [sort_replace, mapO_eq_none hc (key_dict_invalid hinv), Option.none_bind]

theorem bubble_sort_invalid {deck : List PyVal} {c : PyVal}
    (hc : c ∈ deck) (hinv : c ∉ card_faces) : bubble_sort deck = none := by
  rw [bubble_sort, mapO_eq_none hc (key_dict_invalid hinv), Option.none_bind]

theorem replace_out_valid {deck : List PyVal} (hv : ValidDeck deck) :
    mapO (fun value => card_faces[value]?)
      (List.insertionSort (· ≤ ·) (deck.map cardIdx)) = some (canon deck) := by
  have h := sort_replace_valid hv
  rw [sort_replace, mapO_card_values hv, Option.some_bind] at h
  exact h

theorem bubble_out_valid {deck : List PyVal} (hv : ValidDeck deck) :
    mapO (fun value => card_faces[value]?) (deck.map cardIdx) = some deck := by
  have h := bubble_sort_valid hv
  rw [bubble_sort, mapO_card_values hv, Option.some_bind] at h
  exact h

theorem sort_replace_heap_frame {heap : List (List PyVal)} {deckRef : Nat} {deck : List PyVal}
    (hd : heap[deckRef]? = some deck) (hv : ValidDeck deck) :
    ∃ heap' r, sort_replace_heap heap deckRef = some (heap', r) ∧
      heap'[deckRef]? = some deck ∧ heap'[r]? = some (canon deck) := by
  have hdlt : deckRef < heap.length := (List.getElem?_eq_some_iff.mp hd).1
  unfold sort_replace_heap
  rw [hd, Option.some_bind]
  simp only [mapO_card_values hv, Option.some_bind, replace_out_valid hv, Option.map_some']
  refine ⟨_, _, rfl, ?_, ?_⟩
  · have hlen1 : ((heap ++ [deck]).set heap.length
        ((deck.map cardIdx).map (fun v => PyVal.int v))).length = heap.length + 1 := by
      rw [List.length_set, List.length_append]
      rfl
    rw [List.getElem?_set_ne (by rw [hlen1]; omega), List.getElem?_append,
      if_pos (by rw [hlen1]; omega), List.getElem?_set_ne (by omega),
      List.getElem?_append, if_pos hdlt, hd]
  · have hlen1 : ((heap ++ [deck]).set heap.length
        ((deck.map cardIdx).map (fun v => PyVal.int v))).length = heap.length + 1 := by
      rw [List.length_set, List.length_append]
      rfl
    rw [List.getElem?_set, if_pos rfl,
      if_pos (by simp only [List.length_append, List.length_cons, List.length_nil, hlen1]; omega)]

theorem bubble_sort_heap_frame {heap : List (List PyVal)} {deckRef : Nat} {deck : List PyVal}
    (hd : heap[deckRef]? = some deck) (hv : ValidDeck deck) :
    ∃ heap' r, bubble_sort_heap heap deckRef = some (heap', r) ∧
      heap'[deckRef]? = some deck ∧ heap'[r]? = some deck := by
  have hdlt : deckRef < heap.length := (List.getElem?_eq_some_iff.mp hd).1
  unfold bubble_sort_heap
  rw [hd, Option.some_bind]
  simp only [mapO_card_values hv, Option.some_bind, bubble_out_valid hv, Option.map_some']
  refine ⟨_, _, rfl, ?_, ?_⟩
  · rw [List.getElem?_set_ne (by omega), List.getElem?_set_ne (by omega),
      List.getElem?_append, if_pos hdlt, hd]
  · have hlen1 : ((heap ++ [deck]).set heap.length
        ((deck.map cardIdx).map (fun v => PyVal.int v))).length = heap.length + 1 := by
      rw [List.length_set, List.length_append]
      rfl
    rw [List.getElem?_set, if_pos rfl, if_pos (by rw [hlen1]; omega)]

/-! ### The claims -/

/-- C1: the claim that every one of the seven strategies returns an output
that is monotonically non-decreasing under the `card_faces` position
ordering fails on the code.  `bubble_sort` contains no sorting statement
(its `# manual bubble sort` comment is followed by nothing), so on the
deck `[King, Ace]` it returns `[King, Ace]` unchanged, which is not
non-decreasing under `rankLe`; the harness's own
`assert bubble_sort() == baseline` documents that a sorted result was
intended. -/
theorem claim_C1_bubble_sort_output_not_sorted :
    bubble_sort [PyVal.str "King", PyVal.str "Ace"] =
      some [PyVal.str "King", PyVal.str "Ace"] ∧
    ¬ List.Pairwise rankLe [PyVal.str "King", PyVal.str "Ace"] := by
  exact ⟨by decide, by decide⟩

/-- C2: for every deck drawn from the 13 card faces, every strategy's
output is a permutation of the deck (same multiset, same length). -/
theorem claim_C2_outputs_are_permutations (deck : List PyVal) (hv : ValidDeck deck) :
    (∃ out, sort_with_val_dict deck = some out ∧ out.Perm deck) ∧
    (∃ out, sort_with_val_index deck = some out ∧ out.Perm deck) ∧
    (∃ out, sort_with_dict_counts deck = some out ∧ out.Perm deck) ∧
    (∃ out, sort_ordered_dict deck = some out ∧ out.Perm deck) ∧
    (sort_counter deck).Perm deck ∧
    (∃ out, sort_replace deck = some out ∧ out.Perm deck) ∧
    (∃ out, bubble_sort deck = some out ∧ out.Perm deck) := by
  refine ⟨⟨canon deck, sort_with_val_dict_valid hv, canon_perm hv⟩,
    ⟨canon deck, sort_with_val_index_valid hv, canon_perm hv⟩,
    ⟨canon deck, sort_with_dict_counts_valid hv, canon_perm hv⟩,
    ⟨canon deck, sort_ordered_dict_valid hv, canon_perm hv⟩,
    ?_,
    ⟨canon deck, sort_replace_valid hv, canon_perm hv⟩,
    ⟨deck, bubble_sort_valid hv, List.Perm.refl deck⟩⟩
  rw [sort_counter_eq_canon]
  exact canon_perm hv

/-- Witness for C2 at the concrete deck `[3, 2]`. -/
theorem claim_C2_witness :
    ValidDeck [PyVal.int 3, PyVal.int 2] ∧
    ((∃ out, sort_with_val_dict [PyVal.int 3, PyVal.int 2] = some out ∧
        out.Perm [PyVal.int 3, PyVal.int 2]) ∧
     (∃ out, sort_with_val_index [PyVal.int 3, PyVal.int 2] = some out ∧
        out.Perm [PyVal.int 3, PyVal.int 2]) ∧
     (∃ out, sort_with_dict_counts [PyVal.int 3, PyVal.int 2] = some out ∧
        out.Perm [PyVal.int 3, PyVal.int 2]) ∧
     (∃ out, sort_ordered_dict [PyVal.int 3, PyVal.int 2] = some out ∧
        out.Perm [PyVal.int 3, PyVal.int 2]) ∧
     (sort_counter [PyVal.int 3, PyVal.int 2]).Perm [PyVal.int 3, PyVal.int 2] ∧
     (∃ out, sort_replace [PyVal.int 3, PyVal.int 2] = some out ∧
        out.Perm [PyVal.int 3, PyVal.int 2]) ∧
     (∃ out, bubble_sort [PyVal.int 3, PyVal.int 2] = some out ∧
        out.Perm [PyVal.int 3, PyVal.int 2])) :=
  ⟨by decide, claim_C2_outputs_are_permutations [PyVal.int 3, PyVal.int 2] (by decide)⟩

/-- C3: cross-strategy agreement.  For a fixed valid deck, the six
implemented strategies produce element-wise identical outputs, and any
function `g` that is a genuine sort (its output at the deck is a
permutation of the deck arranged non-decreasingly by `rankLe`) — the
spec's reading of strategy 4.3g — agrees with them as well. -/
theorem claim_C3_cross_strategy_agreement (deck : List PyVal)
    (g : List PyVal → List PyVal) (hv : ValidDeck deck)
    (hgp : (g deck).Perm deck) (hgs : List.Pairwise rankLe (g deck)) :
    sort_with_val_dict deck = some (sort_counter deck) ∧
    sort_with_val_index deck = some (sort_counter deck) ∧
    sort_with_dict_counts deck = some (sort_counter deck) ∧
    sort_ordered_dict deck = some (sort_counter deck) ∧
    sort_replace deck = some (sort_counter deck) ∧
    g deck = sort_counter deck := by
  rw [sort_counter_eq_canon]
  exact ⟨sort_with_val_dict_valid hv, sort_with_val_index_valid hv,
    sort_with_dict_counts_valid hv, sort_ordered_dict_valid hv, sort_replace_valid hv,
    sorted_valid_unique (fun x hx => hv x (hgp.subset hx))
      (hgp.trans (canon_perm hv).symm) hgs (canon_sorted deck)⟩

/-- Witness for C3 at the deck `[Queen, Ace]` with the counting-sort
normal form `canon` as the genuine sort `g`. -/
theorem claim_C3_witness :
    ValidDeck [PyVal.str "Queen", PyVal.str "Ace"] ∧
    (canon [PyVal.str "Queen", PyVal.str "Ace"]).Perm [PyVal.str "Queen", PyVal.str "Ace"] ∧
    List.Pairwise rankLe (canon [PyVal.str "Queen", PyVal.str "Ace"]) ∧
    (sort_with_val_dict [PyVal.str "Queen", PyVal.str "Ace"] =
       some (sort_counter [PyVal.str "Queen", PyVal.str "Ace"]) ∧
     sort_with_val_index [PyVal.str "Queen", PyVal.str "Ace"] =
       some (sort_counter [PyVal.str "Queen", PyVal.str "Ace"]) ∧
     sort_with_dict_counts [PyVal.str "Queen", PyVal.str "Ace"] =
       some (sort_counter [PyVal.str "Queen", PyVal.str "Ace"]) ∧
     sort_ordered_dict [PyVal.str "Queen", PyVal.str "Ace"] =
       some (sort_counter [PyVal.str "Queen", PyVal.str "Ace"]) ∧
     sort_replace [PyVal.str "Queen", PyVal.str "Ace"] =
       some (sort_counter [PyVal.str "Queen", PyVal.str "Ace"]) ∧
     canon [PyVal.str "Queen", PyVal.str "Ace"] =
       sort_counter [PyVal.str "Queen", PyVal.str "Ace"]) :=
  ⟨by decide, by decide, by decide,
    claim_C3_cross_strategy_agreement [PyVal.str "Queen", PyVal.str "Ace"] canon
      (by decide) (by decide) (by decide)⟩

/-- C4: on every valid deck the face-to-value and value-to-face
replacements in `bubble_sort` cancel and no reordering happens in
between, so `bubble_sort` returns the input deck unchanged. -/
theorem claim_C4_bubble_sort_is_identity (deck : List PyVal) (hv : ValidDeck deck) :
    bubble_sort deck = some deck :=
  bubble_sort_valid hv

/-- Witness for C4 at the concrete deck `[5, Ace]`. -/
theorem claim_C4_witness :
    ValidDeck [PyVal.int 5, PyVal.str "Ace"] ∧
    bubble_sort [PyVal.int 5, PyVal.str "Ace"] = some [PyVal.int 5, PyVal.str "Ace"] :=
  ⟨by decide, claim_C4_bubble_sort_is_identity [PyVal.int 5, PyVal.str "Ace"] (by decide)⟩

/-- C5: on the concrete deck `[King, Ace, 2, King, Jack]` the six genuine
strategies return `[Ace, 2, Jack, King, King]` as the claim expects, but
`bubble_sort` — whose sorting step is missing — returns the input
unchanged, which differs from the expected output; the harness's
`assert bubble_sort() == baseline` shows the sorted output was
intended. -/
theorem claim_C5_concrete_scenario :
    sort_with_val_dict [PyVal.str "King", PyVal.str "Ace", PyVal.int 2, PyVal.str "King",
        PyVal.str "Jack"] =
      some [PyVal.str "Ace", PyVal.int 2, PyVal.str "Jack", PyVal.str "King",
        PyVal.str "King"] ∧
    sort_with_val_index [PyVal.str "King", PyVal.str "Ace", PyVal.int 2, PyVal.str "King",
        PyVal.str "Jack"] =
      some [PyVal.str "Ace", PyVal.int 2, PyVal.str "Jack", PyVal.str "King",
        PyVal.str "King"] ∧
    sort_with_dict_counts [PyVal.str "King", PyVal.str "Ace", PyVal.int 2, PyVal.str "King",
        PyVal.str "Jack"] =
      some [PyVal.str "Ace", PyVal.int 2, PyVal.str "Jack", PyVal.str "King",
        PyVal.str "King"] ∧
    sort_ordered_dict [PyVal.str "King", PyVal.str "Ace", PyVal.int 2, PyVal.str "King",
        PyVal.str "Jack"] =
      some [PyVal.str "Ace", PyVal.int 2, PyVal.str "Jack", PyVal.str "King",
        PyVal.str "King"] ∧
    sort_counter [PyVal.str "King", PyVal.str "Ace", PyVal.int 2, PyVal.str "King",
        PyVal.str "Jack"] =
      [PyVal.str "Ace", PyVal.int 2, PyVal.str "Jack", PyVal.str "King",
        PyVal.str "King"] ∧
    sort_replace [PyVal.str "King", PyVal.str "Ace", PyVal.int 2, PyVal.str "King",
        PyVal.str "Jack"] =
      some [PyVal.str "Ace", PyVal.int 2, PyVal.str "Jack", PyVal.str "King",
        PyVal.str "King"] ∧
    bubble_sort [PyVal.str "King", PyVal.str "Ace", PyVal.int 2, PyVal.str "King",
        PyVal.str "Jack"] =
      some [PyVal.str "King", PyVal.str "Ace", PyVal.int 2, PyVal.str "King",
        PyVal.str "Jack"] ∧
    ([PyVal.str "King", PyVal.str "Ace", PyVal.int 2, PyVal.str "King", PyVal.str "Jack"] :
        List PyVal) ≠
      [PyVal.str "Ace", PyVal.int 2, PyVal.str "Jack", PyVal.str "King", PyVal.str "King"] := by
  exact ⟨by decide, by decide, by decide, by decide, by decide, by decide, by decide, by decide⟩

/-- C6 counterexample: the claim that every strategy fails on an
unrecognized label is false — `sort_counter` accepts the deck `[Joker]`
without raising and returns `[]`, silently dropping the label. -/
theorem claim_C6_counterexample :
    PyVal.str "Joker" ∉ card_faces ∧ sort_counter [PyVal.str "Joker"] = [] := by
  exact ⟨by decide, by decide⟩

/-- C6 (amended): on a deck containing a label outside the 13 card faces,
the six lookup-based strategies fail with a lookup error, but
`sort_counter` returns normally and silently drops every unrecognized
label: its output is the counting-sort of the recognized labels only, so
every element of its output is a card face. -/
theorem claim_C6_amended_error_handling (deck : List PyVal) (c : PyVal)
    (hc : c ∈ deck) (hinv : c ∉ card_faces) :
    sort_with_val_dict deck = none ∧
    sort_with_val_index deck = none ∧
    sort_with_dict_counts deck = none ∧
    sort_ordered_dict deck = none ∧
    sort_replace deck = none ∧
    bubble_sort deck = none ∧
    sort_counter deck = canon deck ∧
    (∀ x ∈ sort_counter deck, x ∈ card_faces) := by
  refine ⟨sort_with_val_dict_invalid hc hinv, sort_with_val_index_invalid hc hinv,
    sort_with_dict_counts_invalid hc hinv, sort_ordered_dict_invalid hc hinv,
    sort_replace_invalid hc hinv, bubble_sort_invalid hc hinv,
    sort_counter_eq_canon deck, ?_⟩
  rw [sort_counter_eq_canon]
  exact canon_valid deck

/-- Witness for the amended C6 at the deck `[Joker, 2]`. -/
theorem claim_C6_amended_witness :
    PyVal.str "Joker" ∈ [PyVal.str "Joker", PyVal.int 2] ∧
    PyVal.str "Joker" ∉ card_faces ∧
    (sort_with_val_dict [PyVal.str "Joker", PyVal.int 2] = none ∧
     sort_with_val_index [PyVal.str "Joker", PyVal.int 2] = none ∧
     sort_with_dict_counts [PyVal.str "Joker", PyVal.int 2] = none ∧
     sort_ordered_dict [PyVal.str "Joker", PyVal.int 2] = none ∧
     sort_replace [PyVal.str "Joker", PyVal.int 2] = none ∧
     bubble_sort [PyVal.str "Joker", PyVal.int 2] = none ∧
     sort_counter [PyVal.str "Joker", PyVal.int 2] =
       canon [PyVal.str "Joker", PyVal.int 2] ∧
     (∀ x ∈ sort_counter [PyVal.str "Joker", PyVal.int 2], x ∈ card_faces)) :=
  ⟨by decide, by decide,
    claim_C6_amended_error_handling [PyVal.str "Joker", PyVal.int 2] (PyVal.str "Joker")
      (by decide) (by decide)⟩

/-- C7: a valid deck that is already non-decreasing under the `card_faces`
position ordering is a fixed point of every strategy. -/
theorem claim_C7_sorted_decks_are_fixed_points (deck : List PyVal)
    (hv : ValidDeck deck) (hs : List.Pairwise rankLe deck) :
    sort_with_val_dict deck = some deck ∧
    sort_with_val_index deck = some deck ∧
    sort_with_dict_counts deck = some deck ∧
    sort_ordered_dict deck = some deck ∧
    sort_counter deck = deck ∧
    sort_replace deck = some deck ∧
    bubble_sort deck = some deck := by
  have hcanon : canon deck = deck :=
    sorted_valid_unique (canon_valid deck) (canon_perm hv) (canon_sorted deck) hs
  exact ⟨by rw [sort_with_val_dict_valid hv, hcanon],
    by rw [sort_with_val_index_valid hv, hcanon],
    by rw [sort_with_dict_counts_valid hv, hcanon],
    by rw [sort_ordered_dict_valid hv, hcanon],
    by rw [sort_counter_eq_canon, hcanon],
    by rw [sort_replace_valid hv, hcanon],
    bubble_sort_valid hv⟩

/-- Witness for C7 at the already-sorted deck `[Ace, 2, 2]`. -/
theorem claim_C7_witness :
    ValidDeck [PyVal.str "Ace", PyVal.int 2, PyVal.int 2] ∧
    List.Pairwise rankLe [PyVal.str "Ace", PyVal.int 2, PyVal.int 2] ∧
    (sort_with_val_dict [PyVal.str "Ace", PyVal.int 2, PyVal.int 2] =
       some [PyVal.str "Ace", PyVal.int 2, PyVal.int 2] ∧
     sort_with_val_index [PyVal.str "Ace", PyVal.int 2, PyVal.int 2] =
       some [PyVal.str "Ace", PyVal.int 2, PyVal.int 2] ∧
     sort_with_dict_counts [PyVal.str "Ace", PyVal.int 2, PyVal.int 2] =
       some [PyVal.str "Ace", PyVal.int 2, PyVal.int 2] ∧
     sort_ordered_dict [PyVal.str "Ace", PyVal.int 2, PyVal.int 2] =
       some [PyVal.str "Ace", PyVal.int 2, PyVal.int 2] ∧
     sort_counter [PyVal.str "Ace", PyVal.int 2, PyVal.int 2] =
       [PyVal.str "Ace", PyVal.int 2, PyVal.int 2] ∧
     sort_replace [PyVal.str "Ace", PyVal.int 2, PyVal.int 2] =
       some [PyVal.str "Ace", PyVal.int 2, PyVal.int 2] ∧
     bubble_sort [PyVal.str "Ace", PyVal.int 2, PyVal.int 2] =
       some [PyVal.str "Ace", PyVal.int 2, PyVal.int 2]) :=
  ⟨by decide, by decide,
    claim_C7_sorted_decks_are_fixed_points [PyVal.str "Ace", PyVal.int 2, PyVal.int 2]
      (by decide) (by decide)⟩

/-- C8: boundary behavior of every strategy — the empty deck yields the
empty output, a single valid face yields that face unchanged, and a deck
of `n` copies of one valid face yields the same `n`-fold repetition. -/
theorem claim_C8_boundary_cases (c : PyVal) (n : Nat) (hc : c ∈ card_faces) :
    (sort_with_val_dict [] = some [] ∧ sort_with_val_index [] = some [] ∧
     sort_with_dict_counts [] = some [] ∧ sort_ordered_dict [] = some [] ∧
     sort_counter [] = [] ∧ sort_replace [] = some [] ∧ bubble_sort [] = some []) ∧
    (sort_with_val_dict [c] = some [c] ∧ sort_with_val_index [c] = some [c] ∧
     sort_with_dict_counts [c] = some [c] ∧ sort_ordered_dict [c] = some [c] ∧
     sort_counter [c] = [c] ∧ sort_replace [c] = some [c] ∧ bubble_sort [c] = some [c]) ∧
    (sort_with_val_dict (List.replicate n c) = some (List.replicate n c) ∧
     sort_with_val_index (List.replicate n c) = some (List.replicate n c) ∧
     sort_with_dict_counts (List.replicate n c) = some (List.replicate n c) ∧
     sort_ordered_dict (List.replicate n c) = some (List.replicate n c) ∧
     sort_counter (List.replicate n c) = List.replicate n c ∧
     sort_replace (List.replicate n c) = some (List.replicate n c) ∧
     bubble_sort (List.replicate n c) = some (List.replicate n c)) := by
  have key : ∀ m : Nat,
      sort_with_val_dict (List.replicate m c) = some (List.replicate m c) ∧
      sort_with_val_index (List.replicate m c) = some (List.replicate m c) ∧
      sort_with_dict_counts (List.replicate m c) = some (List.replicate m c) ∧
      sort_ordered_dict (List.replicate m c) = some (List.replicate m c) ∧
      sort_counter (List.replicate m c) = List.replicate m c ∧
      sort_replace (List.replicate m c) = some (List.replicate m c) ∧
      bubble_sort (List.replicate m c) = some (List.replicate m c) := by
    intro m
    have hv : ValidDeck (List.replicate m c) := by
      intro x hx
      rw [List.eq_of_mem_replicate hx]
      exact hc
    have hcanon : canon (List.replicate m c) = List.replicate m c :=
      sorted_valid_unique (canon_valid _) (canon_perm hv) (canon_sorted _)
        (pairwise_rankLe_replicate m c)
    exact ⟨by rw [sort_with_val_dict_valid hv, hcanon],
      by rw [sort_with_val_index_valid hv, hcanon],
      by rw [sort_with_dict_counts_valid hv, hcanon],
      by rw [sort_ordered_dict_valid hv, hcanon],
      by rw [sort_counter_eq_canon, hcanon],
      by rw [sort_replace_valid hv, hcanon],
      bubble_sort_valid hv⟩
  refine ⟨⟨by decide, by decide, by decide, by decide, by decide, by decide, by decide⟩,
    ?_, key n⟩
  have h1 := key 1
  rw [List.replicate_one] at h1
  exact h1

/-- Witness for C8 at the face `9` and repetition count `3`. -/
theorem claim_C8_witness :
    PyVal.int 9 ∈ card_faces ∧
    ((sort_with_val_dict [] = some [] ∧ sort_with_val_index [] = some [] ∧
      sort_with_dict_counts [] = some [] ∧ sort_ordered_dict [] = some [] ∧
      sort_counter [] = [] ∧ sort_replace [] = some [] ∧ bubble_sort [] = some []) ∧
     (sort_with_val_dict [PyVal.int 9] = some [PyVal.int 9] ∧
      sort_with_val_index [PyVal.int 9] = some [PyVal.int 9] ∧
      sort_with_dict_counts [PyVal.int 9] = some [PyVal.int 9] ∧
      sort_ordered_dict [PyVal.int 9] = some [PyVal.int 9] ∧
      sort_counter [PyVal.int 9] = [PyVal.int 9] ∧
      sort_replace [PyVal.int 9] = some [PyVal.int 9] ∧
      bubble_sort [PyVal.int 9] = some [PyVal.int 9]) ∧
     (sort_with_val_dict (List.replicate 3 (PyVal.int 9)) =
        some (List.replicate 3 (PyVal.int 9)) ∧
      sort_with_val_index (List.replicate 3 (PyVal.int 9)) =
        some (List.replicate 3 (PyVal.int 9)) ∧
      sort_with_dict_counts (List.replicate 3 (PyVal.int 9)) =
        some (List.replicate 3 (PyVal.int 9)) ∧
      sort_ordered_dict (List.replicate 3 (PyVal.int 9)) =
        some (List.replicate 3 (PyVal.int 9)) ∧
      sort_counter (List.replicate 3 (PyVal.int 9)) = List.replicate 3 (PyVal.int 9) ∧
      sort_replace (List.replicate 3 (PyVal.int 9)) =
        some (List.replicate 3 (PyVal.int 9)) ∧
      bubble_sort (List.replicate 3 (PyVal.int 9)) =
        some (List.replicate 3 (PyVal.int 9)))) :=
  ⟨by decide, claim_C8_boundary_cases (PyVal.int 9) 3 (by decide)⟩

/-- C9: frame property.  In the heap-level models — where Python list
objects live in numbered cells and element assignments write into a cell —
`sort_replace` and `bubble_sort`, the two strategies that assign into list
elements, copy the deck into a fresh cell first (`ret = deck[:]`) and every
write lands in the copy's cell, so the shared deck's cell is unchanged when
they return; the other five strategies only read the deck. -/
theorem claim_C9_no_mutation_of_shared_deck (heap : List (List PyVal)) (deckRef : Nat)
    (deck : List PyVal) (hd : heap[deckRef]? = some deck) (hv : ValidDeck deck) :
    (∃ heap' r, sort_replace_heap heap deckRef = some (heap', r) ∧
       heap'[deckRef]? = some deck ∧ heap'[r]? = some (canon deck)) ∧
    (∃ heap' r, bubble_sort_heap heap deckRef = some (heap', r) ∧
       heap'[deckRef]? = some deck ∧ heap'[r]? = some deck) :=
  ⟨sort_replace_heap_frame hd hv, bubble_sort_heap_frame hd hv⟩

/-- Witness for C9 on a one-cell heap holding the deck `[Jack, 2]`. -/
theorem claim_C9_witness :
    ([[PyVal.str "Jack", PyVal.int 2]] : List (List PyVal))[0]? =
      some [PyVal.str "Jack", PyVal.int 2] ∧
    ValidDeck [PyVal.str "Jack", PyVal.int 2] ∧
    ((∃ heap' r, sort_replace_heap [[PyVal.str "Jack", PyVal.int 2]] 0 = some (heap', r) ∧
        heap'[0]? = some [PyVal.str "Jack", PyVal.int 2] ∧
        heap'[r]? = some (canon [PyVal.str "Jack", PyVal.int 2])) ∧
     (∃ heap' r, bubble_sort_heap [[PyVal.str "Jack", PyVal.int 2]] 0 = some (heap', r) ∧
        heap'[0]? = some [PyVal.str "Jack", PyVal.int 2] ∧
        heap'[r]? = some [PyVal.str "Jack", PyVal.int 2])) :=
  ⟨by decide, by decide,
    claim_C9_no_mutation_of_shared_deck [[PyVal.str "Jack", PyVal.int 2]] 0
      [PyVal.str "Jack", PyVal.int 2] (by decide) (by decide)⟩

/-- C10: `sort_with_val_index` and the harness's `baseline` are the same
function of the deck, so on every valid deck both return the same sorted
sequence and the harness's equality assertion for this strategy holds. -/
theorem claim_C10_index_strategy_matches_baseline (deck : List PyVal)
    (hv : ValidDeck deck) :
    ∃ out, sort_with_val_index deck = some out ∧ baseline deck = some out :=
  ⟨canon deck, sort_with_val_index_valid hv, baseline_valid hv⟩

/-- Witness for C10 at the concrete deck `[10, 4]`. -/
theorem claim_C10_witness :
    ValidDeck [PyVal.int 10, PyVal.int 4] ∧
    (∃ out, sort_with_val_index [PyVal.int 10, PyVal.int 4] = some out ∧
       baseline [PyVal.int 10, PyVal.int 4] = some out) :=
  ⟨by decide,
    claim_C10_index_strategy_matches_baseline [PyVal.int 10, PyVal.int 4] (by decide)⟩
